import Mathlib

/-!
Verification of the imagebuilder/osman repository against its natural-language
specification.  The development shallowly embeds the Go sources:

* namespace `Osman` embeds `functions.go` (`List`, `listBuild`, `Drop`) and
  `commands/drop.go` (the summary-error loop of `NewDropCommand`);
* namespace `Mnt` embeds the mount reaper `umount` of `infra/build.go`;
* namespace `Cleanup` embeds the deferred cleanup block of `Builder.build`
  (`infra/build.go` lines 116-156);
* namespace `Infra` embeds the build engine of `infra/build.go`
  (`Builder.build`, `buildFromFile`, `initialize`, the `cloneFn` closure and
  the `imageBuild` command handlers `From`/`Params`/`Run`).

External collaborators that are not part of the sources (storage driver,
parser, initializer, repository, isolator) are modelled from the spec, as
explicit functions or state, and each such definition says so in its doc
comment.  Machine effects (syscalls, mounts, chroot) are recorded as trace
events so that theorems can talk about what the code did.
-/

namespace Osman

/-- Build type embedded in a build ID (`types.BuildType`). -/
inductive BuildType
  | image
  | mnt
  | boot
deriving DecidableEq

/-- A build ID carries its type (`BuildID.Type()`) and an opaque unique part. -/
structure BuildID where
  typ : BuildType
  num : Nat
deriving DecidableEq

/-- `types.BuildKey`: a `(name, tag)` pair. -/
structure BuildKey where
  name : String
  tag : String
deriving DecidableEq

/-- `types.BuildInfo`, restricted to the fields `List`/`Drop` read.
`basedOn = none` models the empty `BasedOn` build ID. -/
structure BuildInfo where
  buildID : BuildID
  basedOn : Option BuildID
  name : String
  tags : List String
deriving DecidableEq

/-- `config.Filter`. -/
structure Filter where
  types : List BuildType
  buildIDs : List BuildID
  buildKeys : List BuildKey
  untagged : Bool

/-- Errors surfaced by `List`/`Drop`.  `infoFailed` models a failing
`storage.Info`; `outOfFuel` marks exhaustion of the fuel that stands in for
Go's unbounded loops and never occurs for sufficient fuel. -/
inductive Err
  | noSelector
  | noBuildsSelected
  | infoFailed (id : BuildID)
  | outOfFuel
deriving DecidableEq

/-- `listBuild` (functions.go:317-338).  Go's `map` arguments are modelled as
`List` membership; the `nil`-map distinction for `buildIDs`/`buildKeys` is an
`Option`. -/
def listBuild (info : BuildInfo) (buildTypes : List BuildType)
    (buildIDs : Option (List BuildID)) (buildKeys : Option (List BuildKey))
    (untagged : Bool) : Bool :=
  if ¬ buildTypes.contains info.buildID.typ then false
  else if untagged ∧ info.tags ≠ [] then false
  else if (match buildIDs with
           | some ids => ids.contains info.buildID
           | none => false) then true
  else if (match buildKeys with
           | some keys =>
             keys.contains ⟨info.name, ""⟩ ||
               info.tags.any fun tag =>
                 keys.contains ⟨info.name, tag⟩ || keys.contains ⟨"", tag⟩
           | none => false) then true
  else buildIDs = none ∧ buildKeys = none

/-- The enumeration loop of `List` (functions.go:235-245): look up `Info` for
every build ID, keep those accepted by `listBuild`. -/
def listLoop (info : BuildID → Option BuildInfo) (buildTypes : List BuildType)
    (buildIDs : Option (List BuildID)) (buildKeys : Option (List BuildKey))
    (untagged : Bool) : List BuildID → Except Err (List BuildInfo)
  | [] => .ok []
  | id :: rest =>
    match info id with
    | none => .error (.infoFailed id)
    | some bi =>
      match listLoop info buildTypes buildIDs buildKeys untagged rest with
      | .error e => .error e
      | .ok tail =>
        if listBuild bi buildTypes buildIDs buildKeys untagged then
          .ok (bi :: tail)
        else
          .ok tail

/-- `List` (functions.go:209-247).  `builds` is the result of `s.Builds()`,
`info` models `s.Info`. -/
def ListGo (filtering : Filter) (builds : List BuildID)
    (info : BuildID → Option BuildInfo) : Except Err (List BuildInfo) :=
  let buildIDs := if filtering.buildIDs.length > 0 then some filtering.buildIDs else none
  let buildKeys := if filtering.buildKeys.length > 0 then some filtering.buildKeys else none
  listLoop info filtering.types buildIDs buildKeys filtering.untagged builds

/-- The `child → parent` map of `Drop`; a stored `none` is Go's `""`. -/
abbrev TreeMap := List (BuildID × Option BuildID)

/-- Go map read `tree[buildID]`: an absent key and a stored `""` both give the
empty build ID, i.e. `none`. -/
def treeGet (tree : TreeMap) (id : BuildID) : Option BuildID :=
  match tree.find? fun e => decide (e.1 = id) with
  | some e => e.2
  | none => none

/-- Membership test `_, exists := tree[buildID]`. -/
def treeHas (tree : TreeMap) (id : BuildID) : Bool :=
  (tree.find? fun e => decide (e.1 = id)).isSome

/-- The inner chain-walk loop of `Drop` (functions.go:270-283).  Faithful to
the source: after recording `tree[build.BuildID] = build.BasedOn` it re-reads
`s.Info(build.BuildID)` — the same build, not its parent — so the next
iteration finds the key present and stops. -/
def treeWalkLoop (info : BuildID → Option BuildInfo) :
    Nat → BuildInfo → TreeMap → Except Err TreeMap
  | 0, _, _ => .error .outOfFuel
  | fuel + 1, bi, tree =>
    if treeHas tree bi.buildID then .ok tree
    else
      let tree' := tree ++ [(bi.buildID, bi.basedOn)]
      match bi.basedOn with
      | none => .ok tree'
      | some _ =>
        match info bi.buildID with
        | none => .error (.infoFailed bi.buildID)
        | some bi2 => treeWalkLoop info fuel bi2 tree'

/-- Insertion into a Go map used as a set (`toDelete[buildID] = true`). -/
def insertId (id : BuildID) (l : List BuildID) : List BuildID :=
  if id ∈ l then l else l ++ [id]

/-- The selection loop of `Drop` (functions.go:268-284): mark each listed
build for deletion and run the chain walk. -/
def buildToDeleteAndTree (info : BuildID → Option BuildInfo) (fuel : Nat) :
    List BuildInfo → List BuildID × TreeMap → Except Err (List BuildID × TreeMap)
  | [], acc => .ok acc
  | bi :: rest, (toDelete, tree) =>
    let toDelete' := insertId bi.buildID toDelete
    match treeWalkLoop info fuel bi tree with
    | .error e => .error e
    | .ok tree' => buildToDeleteAndTree info fuel rest (toDelete', tree')

/-- The recursive `sort` closure of `Drop` (functions.go:292-304): visit the
parent first, then append the node to the sequence iff it is selected.
`acc = (enqueued, deleteSequence)`. -/
def sortVisit (tree : TreeMap) (toDelete : List BuildID) :
    Nat → BuildID → List BuildID × List BuildID → List BuildID × List BuildID
  | 0, _, acc => acc
  | fuel + 1, id, (enq, seq) =>
    if id ∈ enq then (enq, seq)
    else
      let acc :=
        match treeGet tree id with
        | some parent => sortVisit tree toDelete fuel parent (enq, seq)
        | none => (enq, seq)
      if id ∈ toDelete then (insertId id acc.1, acc.2 ++ [id]) else acc

/-- The driver loop `for _, build := range builds { sort(build.BuildID) }`
(functions.go:305-307). -/
def sortAll (tree : TreeMap) (toDelete : List BuildID) (fuel : Nat) :
    List BuildInfo → List BuildID × List BuildID → List BuildID × List BuildID
  | [], acc => acc
  | bi :: rest, acc => sortAll tree toDelete fuel rest (sortVisit tree toDelete fuel bi.buildID acc)

/-- `Result` (functions.go:250-253).  Per-build drop errors are opaque
strings. -/
structure DropResult where
  buildID : BuildID
  result : Option String
deriving DecidableEq

/-- The deletion loop of `Drop` (functions.go:309-313): iterate the delete
sequence from its end, recording a `Result` for every build regardless of
individual failures. -/
def dropLoopGo (dropFn : BuildID → Option String) : List BuildID → List DropResult
  | [] => []
  | id :: rest => dropLoopGo dropFn rest ++ [⟨id, dropFn id⟩]

/-- `Drop` (functions.go:256-315).  `all` is `drop.All`, `builds`/`info`
model the storage enumeration, `dropFn` models `s.Drop`. -/
def DropGo (all : Bool) (filtering : Filter) (builds : List BuildID)
    (info : BuildID → Option BuildInfo) (fuel : Nat)
    (dropFn : BuildID → Option String) : Except Err (List DropResult) :=
  if ¬ all ∧ filtering.buildIDs = [] ∧ filtering.buildKeys = [] then
    .error .noSelector
  else
    match ListGo filtering builds info with
    | .error e => .error e
    | .ok selected =>
      match buildToDeleteAndTree info fuel selected ([], []) with
      | .error e => .error e
      | .ok (toDelete, tree) =>
        if toDelete = [] then .error .noBuildsSelected
        else
          let seq := (sortAll tree toDelete fuel selected ([], [])).2
          .ok (dropLoopGo dropFn seq)

/-- The summary-error loop of `NewDropCommand` (commands/drop.go:27-33):
scan the results and report `some drops failed` on the first per-build
error. -/
def summaryLoop : List DropResult → Option String
  | [] => none
  | r :: rest => if r.result.isSome then some "some drops failed" else summaryLoop rest

end Osman

namespace Mnt

/-- One split of a raw mount-table line at every space.  `strings.SplitN(s,
" ", 3)` agrees with this on fields 0 and 1, which are the only fields
`umount` reads, and on the length test `len(props) < 2`. -/
def splitSp : List Char → List (List Char)
  | [] => [[]]
  | c :: cs =>
    if c = ' ' then [] :: splitSp cs
    else
      match splitSp cs with
      | [] => [[c]]
      | f :: r => (c :: f) :: r

/-- The space-separated fields of a mount-table line. -/
def lineFields (line : String) : List (List Char) := splitSp line.data

/-- The mountpoint field `props[1]` of a line (meaningful when the line has
at least two fields). -/
def mountpointOf (line : String) : List Char := (lineFields line).getD 1 []

/-- Outcome of one scan over the mount-table lines: `done` models the
`return nil` taken at the first line with fewer than two fields, `unmount mp`
the `syscall.Unmount(mountpoint, 0)` issued for the first matching line. -/
inductive ScanOut
  | done
  | unmount (mp : List Char)
deriving DecidableEq

/-- The inner `for _, mount := range strings.Split(...)` loop of `umount`
(infra/build.go:294-309).  A line is processed when
`strings.HasPrefix(mountpoint, imgPath + "/")` holds or the whole line equals
`imgPath + "/"` (the source compares `mount != prefix`, i.e. the raw line
against the slash-suffixed prefix). -/
def scanLines (imgPath : String) : List String → ScanOut
  | [] => .done
  | line :: rest =>
    if (lineFields line).length < 2 then .done
    else
      let mp := mountpointOf line
      if ¬ (List.isPrefixOf (imgPath ++ "/").data mp) ∧ line ≠ imgPath ++ "/" then
        scanLines imgPath rest
      else
        .unmount mp

/-- Modelled from the spec: `syscall.Unmount(mp, 0)` detaches the mount at
mountpoint `mp`; in the table model it removes the first entry whose
mountpoint field equals `mp`. -/
def unmountEntry (mp : List Char) : List String → List String
  | [] => []
  | line :: rest =>
    if mountpointOf line = mp then rest
    else line :: unmountEntry mp rest

/-- The lines produced by reading `/proc/mounts` and splitting on newlines:
the file ends with a newline, so the split yields the entries followed by one
empty line. -/
def readLines (table : List String) : List String := table ++ [""]

/-- `umount` (infra/build.go:287-311).  The kernel mount table is a list of
raw lines; after every unmount the table is re-read and the scan restarts.
`none` models fuel exhaustion and never occurs for fuel above the table
length. -/
def umountGo (imgPath : String) : Nat → List String → Option (List String)
  | 0, _ => none
  | fuel + 1, table =>
    match scanLines imgPath (readLines table) with
    | .done => some table
    | .unmount mp => umountGo imgPath fuel (unmountEntry mp table)

/-- The selection predicate of the scan, as a function of one line: the
mountpoint extends `imgPath + "/"`, or the whole raw line equals
`imgPath + "/"`. -/
def mountMatches (imgPath line : String) : Bool :=
  List.isPrefixOf (imgPath ++ "/").data (mountpointOf line) || line = imgPath ++ "/"

/-- A well-formed kernel mount table for path `imgPath`: every entry has at
least two space-separated fields (true of every real `/proc/mounts` entry)
and no raw entry coincides with `imgPath + "/"` (true whenever `imgPath`
contains no space). -/
def wellFormedTable (imgPath : String) (table : List String) : Prop :=
  ∀ line ∈ table, 2 ≤ (lineFields line).length ∧ line ≠ imgPath ++ "/"

end Mnt

namespace Cleanup

/-- Go errors as classified by the deferred cleanup: `imageDoesNotExist` is
`types.ErrImageDoesNotExist`, `notExist` is any error for which
`os.IsNotExist` is true, `other n` any other error. -/
inductive GoErr
  | imageDoesNotExist
  | notExist
  | other (n : Nat)
deriving DecidableEq

/-- `os.IsNotExist`. -/
def isNotExist : GoErr → Bool
  | .notExist => true
  | _ => false

/-- Outcomes of the calls the deferred cleanup block makes.  A field of type
`Option (Option GoErr)` is `none` when the corresponding closure was never
assigned (`terminateIsolator == nil`, `imgUnmount == nil`); `some r` means
the closure exists and returns `r` when invoked. -/
structure CleanEnv where
  terminateIsolator : Option (Option GoErr)
  umountRes : Option GoErr
  removeSpecdirRes : Option GoErr
  imgUnmount : Option (Option GoErr)
  removePathRes : Option GoErr
  dropRes : Option GoErr

/-- The `retErr` held after the isolator-termination step (infra/build.go:
119-123): the termination error is kept only when no earlier error is
held. -/
def heldAfterTerminate (retErr0 : Option GoErr) (env : CleanEnv) : Option GoErr :=
  match env.terminateIsolator with
  | none => retErr0
  | some e => if retErr0 = none then e else retErr0

/-- Drop step (infra/build.go:150-155): on a failed build, best-effort
`storage.Drop(buildID)`; a drop error other than `ErrImageDoesNotExist`
replaces the held error.  The boolean records whether the drop ran. -/
def stepDrop (r : Option GoErr) (dropRes : Option GoErr) : Option GoErr × Bool :=
  match r with
  | none => (none, false)
  | some _ =>
    match dropRes with
    | some e => if e = .imageDoesNotExist then (r, true) else (some e, true)
    | none => (r, true)

/-- Scratch-directory removal step (infra/build.go:144-149): a failure other
than not-exist is held and the cleanup returns without dropping. -/
def stepRemovePath (r : Option GoErr) (env : CleanEnv) : Option GoErr × Bool :=
  match env.removePathRes with
  | some e =>
    if ¬ isNotExist e then (if r = none then some e else r, false)
    else stepDrop r env.dropRes
  | none => stepDrop r env.dropRes

/-- Image-unmount step (infra/build.go:136-143): runs only when the unmount
handle was assigned; its failure is held and the cleanup returns without
dropping. -/
def stepImgUnmount (r : Option GoErr) (env : CleanEnv) : Option GoErr × Bool :=
  match env.imgUnmount with
  | some (some e) => (if r = none then some e else r, false)
  | some none => stepRemovePath r env
  | none => stepRemovePath r env

/-- `.specdir` removal step (infra/build.go:130-135): a failure other than
not-exist is held and the cleanup returns without dropping. -/
def stepRemoveSpecdir (r : Option GoErr) (env : CleanEnv) : Option GoErr × Bool :=
  match env.removeSpecdirRes with
  | some e =>
    if ¬ isNotExist e then (if r = none then some e else r, false)
    else stepImgUnmount r env
  | none => stepImgUnmount r env

/-- The deferred cleanup of `Builder.build` (infra/build.go:118-156), as a
function of the error held when the defer runs and of the outcomes of the
calls it makes.  Returns the final `retErr` and whether
`storage.Drop(buildID)` was invoked. -/
def deferredCleanup (retErr0 : Option GoErr) (env : CleanEnv) : Option GoErr × Bool :=
  let r := heldAfterTerminate retErr0 env
  match env.umountRes with
  | some e => (if r = none then some e else r, false)
  | none => stepRemoveSpecdir r env

/-- All cleanup steps preceding the drop succeed (or fail with a tolerated
not-exist): this is the condition under which control reaches the drop
step. -/
def cleanStepsOk (env : CleanEnv) : Bool :=
  env.umountRes = none &&
  (match env.removeSpecdirRes with | some e => isNotExist e | none => true) &&
  (match env.imgUnmount with | some (some _) => false | _ => true) &&
  (match env.removePathRes with | some e => isNotExist e | none => true)

end Cleanup

namespace Infra

/-- A build ID of the infra engine (`types.NewBuildID()` draws fresh,
opaque IDs); `0` models the zero value `""`, real IDs start at 1. -/
abbrev BuildID := Nat

/-- `types.BuildKey`. -/
structure BuildKey where
  name : String
  tag : String
deriving DecidableEq

/-- Errors of the build engine: structured stand-ins for the `error` values
the sources create, plus the modelled storage/parser/initializer errors.
`imageDoesNotExist` is `types.ErrImageDoesNotExist`; `outOfFuel` marks
exhaustion of the recursion fuel and never occurs for sufficient fuel. -/
inductive GoErr
  | imageDoesNotExist
  | buildExists
  | invalidName (name : String)
  | invalidTag (tag : String)
  | depLoop (name tag : String)
  | baseTagsCount
  | duplicateFrom
  | missingFrom
  | commandFailed (msg : String)
  | parseFailed (msg : String)
  | initFailed (msg : String)
  | outOfFuel
deriving DecidableEq

/-- `description` commands: `FROM`, `PARAMS`, `RUN`. -/
inductive Command
  | fromCmd (key : BuildKey)
  | paramsCmd (ps : List String)
  | execCmd (cmd : String)
deriving DecidableEq

/-- `description.Descriptor`: name, tags, ordered commands. -/
structure Descriptor where
  name : String
  tags : List String
  commands : List Command
deriving DecidableEq

/-- `description.Describe`. -/
def Describe (name : String) (tags : List String) (commands : List Command) :
    Descriptor :=
  ⟨name, tags, commands⟩

/-- `types.ImageManifest`; build ID `0` models the empty `BasedOn`/`BuildID`
of the Go zero value. -/
structure Manifest where
  buildID : BuildID
  basedOn : BuildID
  params : List String
deriving DecidableEq

/-- One `wire.Mount` entry of the isolator configuration. -/
structure MountCfg where
  host : String
  container : String
  writable : Bool
deriving DecidableEq

/-- Machine effects of a build, recorded newest-first in the state trace.
`path` arguments identify the scratch directory, which the model names after
the build ID that owns it. -/
inductive Event
  | tempDir (path : Nat)
  | createEmpty (name : String) (id : BuildID)
  | mountEv (id : BuildID) (path : Nat)
  | mkdirRoot (path : Nat)
  | chrootEnter (path : Nat)
  | chrootExit (path : Nat)
  | initCalled (key : BuildKey)
  | cloneEv (src : BuildID) (name : String) (dst : BuildID)
  | isolatorStart (path : Nat) (mounts : List MountCfg)
  | isolatorExec (cmd : String)
  | isolatorTerminate
  | umountScratch (path : Nat)
  | removeSpecdir (path : Nat)
  | imgUnmountEv (path : Nat)
  | removeScratch (path : Nat)
  | storeManifestEv (m : Manifest)
  | tagEv (id : BuildID) (tag : String)
  | dropEv (id : BuildID)
deriving DecidableEq

/-- Modelled from the spec (§4.B, the storage driver is not part of the
sources): datasets with their names, persisted manifests, and the injective
`(name, tag) → BuildID` tag index.  Per spec invariant 2 a manifest exists
iff the dataset exists, so dataset creation seeds a manifest. -/
structure Storage where
  datasets : List (BuildID × String)
  manifests : List (BuildID × Manifest)
  tagIdx : List (BuildKey × BuildID)
deriving DecidableEq

/-- Modelled from the spec: `storage.BuildID(key)` resolves a key through
the tag index, `ErrImageDoesNotExist` on a miss. -/
def storBuildID (stor : Storage) (key : BuildKey) : Except GoErr BuildID :=
  match stor.tagIdx.find? fun e => decide (e.1 = key) with
  | some e => .ok e.2
  | none => .error .imageDoesNotExist

/-- Modelled from the spec: `storage.CreateEmpty(name, id)` allocates an
empty dataset, `ErrBuildExists` if the ID exists; seeds the empty
manifest. -/
def storCreateEmpty (name : String) (id : BuildID) (stor : Storage) :
    Except GoErr Storage :=
  if (stor.datasets.find? fun e => decide (e.1 = id)).isSome then .error .buildExists
  else
    .ok { stor with
          datasets := (id, name) :: stor.datasets,
          manifests := (id, ⟨id, 0, []⟩) :: stor.manifests }

/-- Modelled from the spec: `storage.Clone(src, name, dst)` snapshots `src`
as a new dataset bound to `dst`; `ErrImageDoesNotExist` when the source is
unknown. -/
def storClone (src : BuildID) (name : String) (dst : BuildID) (stor : Storage) :
    Except GoErr Storage :=
  if (stor.datasets.find? fun e => decide (e.1 = src)).isNone then .error .imageDoesNotExist
  else if (stor.datasets.find? fun e => decide (e.1 = dst)).isSome then .error .buildExists
  else
    .ok { stor with
          datasets := (dst, name) :: stor.datasets,
          manifests := (dst, ⟨dst, src, []⟩) :: stor.manifests }

/-- Modelled from the spec: `storage.Manifest(id)`. -/
def storManifest (stor : Storage) (id : BuildID) : Except GoErr Manifest :=
  match stor.manifests.find? fun e => decide (e.1 = id) with
  | some e => .ok e.2
  | none => .error .imageDoesNotExist

/-- Modelled from the spec: `storage.StoreManifest(m)` persists the manifest
keyed by its build ID. -/
def storStoreManifest (m : Manifest) (stor : Storage) : Storage :=
  { stor with
    manifests := (m.buildID, m) :: stor.manifests.filter fun e => ! decide (e.1 = m.buildID) }

/-- Modelled from the spec: `storage.Tag(id, tag)` atomically (re)points the
`(dataset name, tag)` key at `id`, moving it off any prior holder (spec
invariant 1). -/
def storTag (id : BuildID) (tag : String) (stor : Storage) : Except GoErr Storage :=
  match stor.datasets.find? fun e => decide (e.1 = id) with
  | none => .error .imageDoesNotExist
  | some e =>
    let key : BuildKey := ⟨e.2, tag⟩
    .ok { stor with tagIdx := (key, id) :: stor.tagIdx.filter fun t => ! decide (t.1 = key) }

/-- Modelled from the spec: `storage.Drop(id)` removes the dataset, its
manifest, and every tag pointing at it; `ErrImageDoesNotExist` when there is
no such dataset. -/
def storDrop (id : BuildID) (stor : Storage) : Except GoErr Storage :=
  if (stor.datasets.find? fun e => decide (e.1 = id)).isNone then .error .imageDoesNotExist
  else
    .ok { datasets := stor.datasets.filter fun e => ! decide (e.1 = id),
          manifests := stor.manifests.filter fun e => ! decide (e.1 = id),
          tagIdx := stor.tagIdx.filter fun t => ! decide (t.2 = id) }

/-- Modelled from the spec (§4.A, the `types` validity predicates are not
part of the sources): a name/tag is a non-empty token of letters, digits,
`_`, `-`, `.`. -/
def isNameChar (c : Char) : Bool :=
  c.isAlphanum || c = '_' || c = '-' || c = '.'

/-- `types.IsNameValid`, modelled from the spec. -/
def isNameValid (s : String) : Bool :=
  s ≠ "" && s.data.all isNameChar

/-- `Tag.IsValid`, modelled from the spec. -/
def isTagValid (s : String) : Bool :=
  s ≠ "" && s.data.all isNameChar

/-- `description.DefaultTag`, modelled from the spec (`latest`). -/
def defaultTag : String := "latest"

/-- The mutable world threaded through a build: the Builder's persistent
`readyBuilds` field, the per-top-level-call `stack` map (shared by reference
across recursive builds), the fresh-ID source, the storage state and the
effect trace. -/
structure St where
  readyBuilds : List BuildKey
  stack : List BuildKey
  nextID : Nat
  storage : Storage
  trace : List Event
deriving DecidableEq

/-- The `Builder` configuration bits the embedded code reads. -/
structure BuilderCfg where
  rebuild : Bool

/-- Modelled from the spec: the external collaborators injected into the
`Builder`.  `parse` is the spec-file parser (file name to commands), `repo`
the in-memory repository lookup `Repository.Retrieve`, `initResult` the
base-image initializer outcome, `runResult` the isolator outcome of one
executed command. -/
structure BuildEnv where
  parse : String → Except GoErr (List Command)
  repo : BuildKey → Option Descriptor
  initResult : BuildKey → Option GoErr
  runResult : String → Option GoErr

/-- The type of the recursive entry `b.build(ctx, stack, img)` as seen by the
helpers: a descriptor and the current world produce an error option and the
new world. -/
abbrev BuildRec := Descriptor → St → Option GoErr × St

/-- `buildFromFile` (infra/build.go:60-66): parse the spec file, then build
the described image. -/
def buildFromFileGo (env : BuildEnv) (buildRec : BuildRec)
    (specFile name : String) (tags : List String) (st : St) : Option GoErr × St :=
  match env.parse specFile with
  | .error e => (some e, st)
  | .ok commands => buildRec (Describe name tags commands) st

/-- `initialize` (infra/build.go:68-86): nothing to do for the name
`scratch`; otherwise create the `root` subdirectory, enter the chroot, run
the initializer, and exit the chroot. -/
def initializeGo (env : BuildEnv) (key : BuildKey) (path : Nat) (st : St) :
    Option GoErr × St :=
  if key.name = "scratch" then (none, st)
  else
    let st := { st with trace := .mkdirRoot path :: st.trace }
    let st := { st with trace := .chrootEnter path :: st.trace }
    let st := { st with trace := .initCalled key :: st.trace }
    let res := env.initResult key
    let st := { st with trace := .chrootExit path :: st.trace }
    (res, st)

/-- The cache-lookup step of the `cloneFn` closure (infra/build.go:184-189):
`err` starts as `ErrImageDoesNotExist` and the storage lookup runs only when
the rebuild flag is off or the key was already built by this Builder. -/
def tryCacheLookup (b : BuilderCfg) (st : St) (key : BuildKey) :
    BuildID × Option GoErr :=
  if ¬ b.rebuild ∨ key ∈ st.readyBuilds then
    match storBuildID st.storage key with
    | .ok id => (id, none)
    | .error e => (0, some e)
  else (0, some .imageDoesNotExist)

/-- The resolution part of the `cloneFn` closure (infra/build.go:184-217):
cache lookup, spec-file fallback for the default tag, repository fallback,
each recovering only from `ErrImageDoesNotExist`.  Returns the source build
ID when the cache lookup resolved it (`0` = still unknown). -/
def resolveSrc (env : BuildEnv) (b : BuilderCfg) (buildRec : BuildRec)
    (key : BuildKey) (st : St) : Except GoErr BuildID × St :=
  match tryCacheLookup b st key with
  | (srcBuildID, err1) =>
    match err1 with
    | none => (.ok srcBuildID, st)
    | some .imageDoesNotExist =>
      let specStep :=
        if key.tag = defaultTag then
          buildFromFileGo env buildRec key.name key.name [defaultTag] st
        else (some .imageDoesNotExist, st)
      match specStep with
      | (none, st2) => (.ok srcBuildID, st2)
      | (some .imageDoesNotExist, st2) =>
        let repoStep :=
          match env.repo key with
          | some baseImage => buildRec baseImage st2
          | none => buildRec (Describe key.name [key.tag] []) st2
        match repoStep with
        | (none, st3) => (.ok srcBuildID, st3)
        | (some e, st3) => (.error e, st3)
      | (some e, st2) => (.error e, st2)
    | some e => (.error e, st)

/-- The `cloneFn` closure (infra/build.go:176-256): validate the key,
resolve the source build, clone it under the outer build's identity, mount
it, read the source manifest, and start the isolator with the spec
directory bound at `/.specdir` with `Writable: true`. -/
def cloneFnGo (env : BuildEnv) (b : BuilderCfg) (buildRec : BuildRec)
    (imgName : String) (buildID : BuildID) (path : Nat) (key : BuildKey)
    (st : St) : Except GoErr Manifest × St :=
  if ¬ isNameValid key.name then (.error (.invalidName key.name), st)
  else if ¬ isTagValid key.tag then (.error (.invalidTag key.tag), st)
  else
    match resolveSrc env b buildRec key st with
    | (.error e, st1) => (.error e, st1)
    | (.ok srcBuildID0, st1) =>
      match (if srcBuildID0 = 0 then storBuildID st1.storage key
             else .ok srcBuildID0 : Except GoErr BuildID) with
      | .error e => (.error e, st1)
      | .ok srcBuildID =>
        match storClone srcBuildID imgName buildID st1.storage with
        | .error e => (.error e, st1)
        | .ok stor2 =>
          let st2 := { st1 with
                       storage := stor2,
                       trace := .cloneEv srcBuildID imgName buildID :: st1.trace }
          let st3 := { st2 with trace := .mountEv buildID path :: st2.trace }
          match storManifest st3.storage srcBuildID with
          | .error e => (.error e, st3)
          | .ok manifest =>
            let st4 := { st3 with
                         trace := .isolatorStart path [⟨".", "/.specdir", true⟩] :: st3.trace }
            (.ok manifest, st4)

/-- The per-build session of the command evaluator (`imageBuild`). -/
structure Session where
  fromDone : Bool
  manifest : Manifest
deriving DecidableEq

/-- `imageBuild.From` (infra/build.go:330-342): at most one `FROM`; on
success inherit `BasedOn` and `Params` from the source manifest. -/
def imageBuildFrom (cloneFn : BuildKey → St → Except GoErr Manifest × St)
    (key : BuildKey) (s : Session) (st : St) : Option GoErr × Session × St :=
  if s.fromDone then (some .duplicateFrom, s, st)
  else
    match cloneFn key st with
    | (.error e, st') => (some e, s, st')
    | (.ok manifest, st') =>
      (none,
       { s with
         fromDone := true,
         manifest := { s.manifest with
                       basedOn := manifest.buildID,
                       params := manifest.params } },
       st')

/-- `imageBuild.Params` (infra/build.go:345-351): requires a completed
`FROM`; appends the parameters. -/
def imageBuildParams (ps : List String) (s : Session) (st : St) :
    Option GoErr × Session × St :=
  if ¬ s.fromDone then (some .missingFrom, s, st)
  else
    (none, { s with manifest := { s.manifest with params := s.manifest.params ++ ps } }, st)

/-- `imageBuild.Run` (infra/build.go:354-384): requires a completed `FROM`;
sends `Execute` to the isolator (recorded as a trace event) and returns the
modelled outcome of the `Log`/`Completed` protocol loop. -/
def imageBuildRun (env : BuildEnv) (cmd : String) (s : Session) (st : St) :
    Option GoErr × Session × St :=
  if ¬ s.fromDone then (some .missingFrom, s, st)
  else
    let st' := { st with trace := .isolatorExec cmd :: st.trace }
    (env.runResult cmd, s, st')

/-- The command loop of `build` (infra/build.go:258-268), dispatching each
directive to the evaluator; the context is modelled as never cancelled. -/
def runCmds (env : BuildEnv) (cloneFn : BuildKey → St → Except GoErr Manifest × St) :
    List Command → Session → St → Option GoErr × Session × St
  | [], s, st => (none, s, st)
  | c :: rest, s, st =>
    match (match c with
           | .fromCmd key => imageBuildFrom cloneFn key s st
           | .paramsCmd ps => imageBuildParams ps s st
           | .execCmd cmd => imageBuildRun env cmd s st) with
    | (some e, s', st') => (some e, s', st')
    | (none, s', st') => runCmds env cloneFn rest s' st'

/-- The tag loop of `build` (infra/build.go:276-280). -/
def tagLoop (buildID : BuildID) : List BuildKey → St → Option GoErr × St
  | [], st => (none, st)
  | key :: rest, st =>
    match storTag buildID key.tag st.storage with
    | .error e => (some e, st)
    | .ok stor =>
      tagLoop buildID rest { st with storage := stor, trace := .tagEv buildID key.tag :: st.trace }

/-- The ready-marking loop of `build` (infra/build.go:281-283): the keys are
added to the Builder's persistent `readyBuilds` field. -/
def markReady (keys : List BuildKey) (st : St) : St :=
  { st with readyBuilds := keys ++ st.readyBuilds }

/-- The validation loop over tags (infra/build.go:96-107): reject invalid
tags, detect dependency cycles through the shared `stack`, record each key
on the stack and collect it. -/
def checkTags (name : String) : List String → St → Except GoErr (List BuildKey) × St
  | [], st => (.ok [], st)
  | tag :: rest, st =>
    if ¬ isTagValid tag then (.error (.invalidTag tag), st)
    else
      let key : BuildKey := ⟨name, tag⟩
      if key ∈ st.stack then (.error (.depLoop name tag), st)
      else
        let st := { st with stack := key :: st.stack }
        match checkTags name rest st with
        | (.error e, st') => (.error e, st')
        | (.ok keys, st') => (.ok (key :: keys), st')

/-- The base-or-derivative dispatch of `build` (infra/build.go:158-274):
base-image case for a command-less descriptor — exactly one tag, create an
empty dataset, mount it, initialize inside the root switch — otherwise the
command loop over the evaluator followed by manifest persistence.  Returns
`(error, isolator started, image mounted, world)`; the two booleans feed the
deferred cleanup.  In this model the isolator is started (and the image
mounted) exactly when `FROM` completed, i.e. when the session's `fromDone`
is set. -/
def buildBodyCore (env : BuildEnv) (b : BuilderCfg) (buildRec : BuildRec)
    (img : Descriptor) (tags : List String)
    (buildID : BuildID) (path : Nat) (st : St) :
    Option GoErr × Bool × Bool × St :=
  if img.commands = [] then
    if tags.length ≠ 1 then (some GoErr.baseTagsCount, false, false, st)
    else
      match storCreateEmpty img.name buildID st.storage with
      | .error e => (some e, false, false, st)
      | .ok stor =>
        let st := { st with
                    storage := stor,
                    trace := .createEmpty img.name buildID :: st.trace }
        let st := { st with trace := .mountEv buildID path :: st.trace }
        match initializeGo env ⟨img.name, tags.getD 0 ""⟩ path st with
        | (some e, st) => (some e, false, true, st)
        | (none, st) => (none, false, true, st)
  else
    match runCmds env (cloneFnGo env b buildRec img.name buildID path)
        img.commands ⟨false, ⟨0, 0, []⟩⟩ st with
    | (some e, s, st) => (some e, s.fromDone, s.fromDone, st)
    | (none, s, st) =>
      let m := { s.manifest with buildID := buildID }
      let st := { st with
                  storage := storStoreManifest m st.storage,
                  trace := .storeManifestEv m :: st.trace }
      (none, s.fromDone, s.fromDone, st)

/-- The body of `build` after scratch-path setup (infra/build.go:158-284):
the base-or-derivative dispatch, then on success the tag loop and the
ready-marking. -/
def buildBody (env : BuildEnv) (b : BuilderCfg) (buildRec : BuildRec)
    (img : Descriptor) (tags : List String) (keys : List BuildKey)
    (buildID : BuildID) (path : Nat) (st : St) :
    Option GoErr × Bool × Bool × St :=
  match buildBodyCore env b buildRec img tags buildID path st with
  | (some e, up, mounted, st) => (some e, up, mounted, st)
  | (none, up, mounted, st) =>
    match tagLoop buildID keys st with
    | (some e, st) => (some e, up, mounted, st)
    | (none, st) => (none, up, mounted, markReady keys st)

/-- The deferred cleanup of `build` (infra/build.go:118-156) in the engine
model, where the system calls themselves succeed (namespace `Cleanup` embeds
the same block with failing outcomes): terminate the isolator if started,
unmount beneath the scratch path, remove `.specdir`, release the image
mount, remove the scratch directory, and on failure best-effort-drop the
build, ignoring `ErrImageDoesNotExist` there. -/
def buildCleanup (bodyErr : Option GoErr) (isolatorUp mounted : Bool)
    (buildID : BuildID) (path : Nat) (st : St) : Option GoErr × St :=
  let st := if isolatorUp then { st with trace := .isolatorTerminate :: st.trace } else st
  let st := { st with trace := .umountScratch path :: st.trace }
  let st := { st with trace := .removeSpecdir path :: st.trace }
  let st := if mounted then { st with trace := .imgUnmountEv path :: st.trace } else st
  let st := { st with trace := .removeScratch path :: st.trace }
  match bodyErr with
  | none => (none, st)
  | some e =>
    let st := { st with trace := .dropEv buildID :: st.trace }
    match storDrop buildID st.storage with
    | .ok stor => (some e, { st with storage := stor })
    | .error e2 => if e2 = .imageDoesNotExist then (some e, st) else (some e2, st)

/-- `build` (infra/build.go:88-285), with recursion fuel: validate the name
and tags, allocate the build ID and scratch path, run the body, run the
deferred cleanup. -/
def buildGo (env : BuildEnv) (b : BuilderCfg) : Nat → Descriptor → St → Option GoErr × St
  | 0, _, st => (some .outOfFuel, st)
  | fuel + 1, img, st =>
    if ¬ isNameValid img.name then (some (.invalidName img.name), st)
    else
      let tags := if img.tags = [] then [defaultTag] else img.tags
      match checkTags img.name tags st with
      | (.error e, st1) => (some e, st1)
      | (.ok keys, st1) =>
        let buildID := st1.nextID
        let path := buildID
        let st2 := { st1 with nextID := st1.nextID + 1, trace := .tempDir path :: st1.trace }
        match buildBody env b (buildGo env b fuel) img tags keys buildID path st2 with
        | (bodyErr, isolatorUp, mounted, st3) =>
          buildCleanup bodyErr isolatorUp mounted buildID path st3

/-- `Builder.Build` (infra/build.go:56-58): a fresh `stack` map for a new
top-level call; the Builder's `readyBuilds` is untouched. -/
def BuildTop (env : BuildEnv) (b : BuilderCfg) (fuel : Nat) (img : Descriptor)
    (st : St) : Option GoErr × St :=
  buildGo env b fuel img { st with stack := [] }

/-- `Builder.BuildFromFile` (infra/build.go:51-53). -/
def BuildFromFileTop (env : BuildEnv) (b : BuilderCfg) (fuel : Nat)
    (specFile name : String) (tags : List String) (st : St) : Option GoErr × St :=
  buildFromFileGo env (buildGo env b fuel) specFile name tags { st with stack := [] }

end Infra

namespace Infra

/-- The `FROM` fallback chain exactly as the specification words it, for a
source whose cache lookup yielded `ErrImageDoesNotExist`: run the spec-file
fallback (a recursive `buildFromFile` on the file named after the source,
under the default tag) iff the tag is the default tag; if that too yields
`ErrImageDoesNotExist`, consult the repository and build its descriptor,
falling back to the empty descriptor `Describe(name, [tag])` when the
repository has no entry; at either fallback point any other error aborts
with that error. -/
def resolveSpecClaim (env : BuildEnv) (buildRec : BuildRec) (key : BuildKey)
    (st : St) : Except GoErr BuildID × St :=
  let specStep :=
    if key.tag = defaultTag then
      buildFromFileGo env buildRec key.name key.name [defaultTag] st
    else (some GoErr.imageDoesNotExist, st)
  match specStep with
  | (none, st1) => (.ok 0, st1)
  | (some .imageDoesNotExist, st1) =>
    let repoStep :=
      match env.repo key with
      | some d => buildRec d st1
      | none => buildRec (Describe key.name [key.tag] []) st1
    match repoStep with
    | (none, st2) => (.ok 0, st2)
    | (some e, st2) => (.error e, st2)
  | (some e, st1) => (.error e, st1)

/-- Every isolator-start event in a trace hands the isolator exactly the
one bind of the spec directory at `/.specdir`, marked writable. -/
def isoStartsSpecdirWritable (tr : List Event) : Prop :=
  ∀ p ms, Event.isolatorStart p ms ∈ tr → ms = [⟨".", "/.specdir", true⟩]

/-! Concrete scenario: a Builder constructed with `rebuild = true`, an
environment whose spec-file parser knows one file `base` describing an
empty base image, and two successive top-level builds of derivative images
`app` and `app2`, both `FROM base:latest`, on the same Builder. -/

/-- Environment of the concrete scenarios: the file `base` parses to an
empty command list, no repository entries, initializer and isolator
commands succeed. -/
def env0 : BuildEnv :=
  { parse := fun f => if f = "base" then .ok [] else .error (.parseFailed f)
    repo := fun _ => none
    initResult := fun _ => none
    runResult := fun _ => none }

/-- Initial world: nothing built, fresh IDs start at 1. -/
def st0 : St := ⟨[], [], 1, ⟨[], [], []⟩, []⟩

/-- Derivative descriptor `app:latest`, `FROM base:latest`. -/
def app1 : Descriptor := Describe "app" ["latest"] [.fromCmd ⟨"base", "latest"⟩]

/-- Derivative descriptor `app2:latest`, `FROM base:latest`. -/
def app2 : Descriptor := Describe "app2" ["latest"] [.fromCmd ⟨"base", "latest"⟩]

/-- First top-level call on the rebuild-mode Builder. -/
def call1 : Option GoErr × St := BuildTop env0 ⟨true⟩ 10 app1 st0

/-- Second, separate top-level call on the same Builder. -/
def call2 : Option GoErr × St := BuildTop env0 ⟨true⟩ 10 app2 call1.2

end Infra

namespace Osman

/-! Concrete scenario for the drop planner: three image builds
`A ← B ← C` (`A` based on `B`, `B` based on `C`), of which only `A` and `C`
are selected for deletion. -/

/-- Build ID `A` (the youngest descendant). -/
def idA : BuildID := ⟨.image, 0⟩

/-- Build ID `B` (the unselected intermediate). -/
def idB : BuildID := ⟨.image, 1⟩

/-- Build ID `C` (the root ancestor). -/
def idC : BuildID := ⟨.image, 2⟩

/-- Storage info: `A` is based on `B`, `B` on `C`, `C` is a root. -/
def infoABC : BuildID → Option BuildInfo := fun id =>
  if id = idA then some ⟨idA, some idB, "a", []⟩
  else if id = idB then some ⟨idB, some idC, "b", []⟩
  else if id = idC then some ⟨idC, none, "c", []⟩
  else none

/-- Filter selecting exactly builds `A` and `C` by ID. -/
def filterAC : Filter := ⟨[.image], [idA, idC], [], false⟩

end Osman

namespace Infra

/-- Relation between an input world and an output world of any engine step:
the Builder's `readyBuilds` only ever grows, and the trace gains isolator
starts only with the one writable `/.specdir` bind.  Reflexive and
transitive; every engine operation relates its input to its output. -/
def StRel (st st' : St) : Prop :=
  st.readyBuilds ⊆ st'.readyBuilds ∧
  (isoStartsSpecdirWritable st.trace → isoStartsSpecdirWritable st'.trace)

end Infra

/-! ## Theorems -/

namespace Osman

lemma dropLoopGo_eq (dropFn : BuildID → Option String) :
    ∀ seq : List BuildID,
      dropLoopGo dropFn seq = seq.reverse.map fun id => ⟨id, dropFn id⟩
  | [] => rfl
  | id :: rest => by
    simp [dropLoopGo, dropLoopGo_eq dropFn rest]

lemma summaryLoop_isSome :
    ∀ results : List DropResult,
      (summaryLoop results).isSome ↔ ∃ r ∈ results, r.result.isSome
  | [] => by simp [summaryLoop]
  | r :: rest => by
    by_cases h : r.result.isSome
    · simp [summaryLoop, h]
    · simp [summaryLoop, h, summaryLoop_isSome rest]

lemma listLoop_empty_types (info : BuildID → Option BuildInfo)
    (buildIDs : Option (List BuildID)) (buildKeys : Option (List BuildKey))
    (untagged : Bool) :
    ∀ builds : List BuildID, (∀ id ∈ builds, (info id).isSome) →
      listLoop info [] buildIDs buildKeys untagged builds = .ok []
  | [], _ => rfl
  | id :: rest, h => by
    obtain ⟨bi, hbi⟩ := Option.isSome_iff_exists.mp (h id (by simp))
    have hrest := listLoop_empty_types info buildIDs buildKeys untagged rest
      (fun i hi => h i (by simp [hi]))
    simp [listLoop, hbi, hrest, listBuild]

/-- Claim C1: in the storage `A ← B ← C` (`A` based on `B`, `B` based on
`C`), dropping the selection `{A, C}` deletes the ancestor `C` before its
descendant `A`, because the chain walk of `Drop` re-reads the same build and
therefore only ever records direct parents: with the unselected intermediate
`B`, the planner does not know that `C` is an ancestor of `A`, and the
deletion order violates the descendants-first invariant. -/
theorem drop_deletes_ancestor_before_descendant :
    infoABC idA = some ⟨idA, some idB, "a", []⟩ ∧
    infoABC idB = some ⟨idB, some idC, "b", []⟩ ∧
    infoABC idC = some ⟨idC, none, "c", []⟩ ∧
    DropGo false filterAC [idA, idB, idC] infoABC 10 (fun _ => none) =
      .ok [⟨idC, none⟩, ⟨idA, none⟩] :=
  ⟨rfl, rfl, rfl, rfl⟩

/-- Claim C7: whenever `Drop` succeeds, it returns one `Result` per build of
the delete sequence, in deletion order (the reverse of the topological
sequence), each carrying the outcome of its own `s.Drop` call — so a failed
drop never aborts the remaining deletions — and the drop command surfaces
the summary error exactly when at least one per-build result carries an
error. -/
theorem drop_results_complete_and_summary_error_iff :
    (∀ (all : Bool) (filtering : Filter) (builds : List BuildID)
        (info : BuildID → Option BuildInfo) (fuel : Nat)
        (dropFn : BuildID → Option String) (results : List DropResult),
        DropGo all filtering builds info fuel dropFn = .ok results →
        ∃ seq : List BuildID,
          results = seq.reverse.map fun id => ⟨id, dropFn id⟩) ∧
    (∀ results : List DropResult,
        (summaryLoop results).isSome ↔ ∃ r ∈ results, r.result.isSome) := by
  constructor
  · intro all filtering builds info fuel dropFn results h
    unfold DropGo at h
    split at h
    · simp at h
    · split at h
      · simp at h
      · split at h
        · simp at h
        · split at h
          · simp at h
          · rw [Except.ok.injEq] at h
            exact ⟨_, by rw [← h, dropLoopGo_eq]⟩
  · exact summaryLoop_isSome

/-- Witness for C7: a concrete drop in which the second deletion fails but
the first is still attempted, and the summary error fires. -/
theorem drop_results_complete_and_summary_error_iff_witness :
    (∃ seq : List BuildID,
        [(⟨idC, none⟩ : DropResult), ⟨idA, some "boom"⟩] =
          seq.reverse.map fun id =>
            ⟨id, if id = idA then some "boom" else none⟩) ∧
    ((summaryLoop [(⟨idC, none⟩ : DropResult), ⟨idA, some "boom"⟩]).isSome ↔
      ∃ r ∈ [(⟨idC, none⟩ : DropResult), ⟨idA, some "boom"⟩], r.result.isSome) :=
  ⟨drop_results_complete_and_summary_error_iff.1 false filterAC [idA, idB, idC] infoABC 10
      (fun id => if id = idA then some "boom" else none) _ rfl,
   drop_results_complete_and_summary_error_iff.2 _⟩

/-- Claim C10: with an empty `Types` list every build fails the type
membership test of `listBuild` no matter which ID or key filters are set,
`List` returns the empty list (provided `Info` answers for every enumerated
build), and `Drop` over such a filter — when it passes the initial selector
guard — deletes nothing and fails with the no-builds-selected error instead
of returning an empty result list. -/
theorem empty_types_filter_selects_nothing :
    (∀ (info : BuildInfo) (buildIDs : Option (List BuildID))
        (buildKeys : Option (List BuildKey)) (untagged : Bool),
        listBuild info [] buildIDs buildKeys untagged = false) ∧
    (∀ (filtering : Filter) (builds : List BuildID)
        (info : BuildID → Option BuildInfo),
        filtering.types = [] →
        (∀ id ∈ builds, (info id).isSome) →
        ListGo filtering builds info = .ok []) ∧
    (∀ (all : Bool) (filtering : Filter) (builds : List BuildID)
        (info : BuildID → Option BuildInfo) (fuel : Nat)
        (dropFn : BuildID → Option String),
        filtering.types = [] →
        (∀ id ∈ builds, (info id).isSome) →
        (all = true ∨ filtering.buildIDs ≠ [] ∨ filtering.buildKeys ≠ []) →
        DropGo all filtering builds info fuel dropFn = .error .noBuildsSelected) := by
  refine ⟨fun info buildIDs buildKeys untagged => by simp [listBuild], ?_, ?_⟩
  · intro filtering builds info htypes hinfo
    unfold ListGo
    rw [htypes]
    exact listLoop_empty_types info _ _ _ builds hinfo
  · intro all filtering builds info fuel dropFn htypes hinfo hsel
    unfold DropGo
    rw [if_neg, ListGo, htypes, listLoop_empty_types info _ _ _ builds hinfo]
    · rfl
    · rcases hsel with h | h | h
      · subst h; simp
      · intro hc; exact h hc.2.1
      · intro hc; exact h hc.2.2

/-- Witness for C10: a filter with a build-ID selector but an empty type
list makes `Drop` fail with the no-builds-selected error. -/
theorem empty_types_filter_selects_nothing_witness :
    DropGo false ⟨[], [idA], [], false⟩ [idA] infoABC 3 (fun _ => none) =
      .error .noBuildsSelected :=
  empty_types_filter_selects_nothing.2.2 false ⟨[], [idA], [], false⟩ [idA] infoABC 3
    (fun _ => none) rfl (by decide) (Or.inr (Or.inl (by decide)))

end Osman

namespace Mnt



lemma scanLines_done (p : String) :
    ∀ lines : List String,
      (∀ l ∈ lines, 2 ≤ (lineFields l).length) →
      (∀ l ∈ lines, mountMatches p l = false) →
      scanLines p (lines ++ [""]) = .done
  | [], _, _ => rfl
  | line :: rest, h2, hm => by
    have hlen := h2 line (by simp)
    have hmm := hm line (by simp)
    simp only [mountMatches, Bool.or_eq_false_iff, decide_eq_false_iff_not] at hmm
    unfold scanLines
    simp only [List.cons_append, List.nil_append]
    rw [if_neg (by omega)]
    rw [if_pos ⟨fun hc => by rw [hmm.1] at hc; exact absurd hc (by simp), hmm.2⟩]
    exact scanLines_done p rest (fun l hl => h2 l (by simp [hl]))
      (fun l hl => hm l (by simp [hl]))

lemma scanLines_first (p : String) :
    ∀ (pre : List String) (line : String) (suf : List String),
      (∀ l ∈ pre, 2 ≤ (lineFields l).length) →
      (∀ l ∈ pre, mountMatches p l = false) →
      2 ≤ (lineFields line).length →
      mountMatches p line = true →
      scanLines p (pre ++ (line :: (suf ++ [""]))) = .unmount (mountpointOf line)
  | [], line, suf, _, _, h2, hm => by
    unfold scanLines
    simp only [List.cons_append, List.nil_append]
    rw [if_neg (by omega)]
    rw [if_neg]
    simp only [mountMatches, Bool.or_eq_true, decide_eq_true_eq] at hm
    rcases hm with h | h
    · intro hc
      exact hc.1 h
    · intro hc
      exact hc.2 h
  | l0 :: pre, line, suf, h2pre, hmpre, h2, hm => by
    have hlen := h2pre l0 (by simp)
    have hmm := hmpre l0 (by simp)
    simp only [mountMatches, Bool.or_eq_false_iff, decide_eq_false_iff_not] at hmm
    unfold scanLines
    simp only [List.cons_append, List.nil_append]
    rw [if_neg (by omega)]
    rw [if_pos ⟨fun hc => by rw [hmm.1] at hc; exact absurd hc (by simp), hmm.2⟩]
    exact scanLines_first p pre line suf (fun l hl => h2pre l (by simp [hl]))
      (fun l hl => hmpre l (by simp [hl])) h2 hm

lemma exists_first_match (p : String) :
    ∀ table : List String,
      (table.any fun l => mountMatches p l) = true →
      ∃ pre line suf, table = pre ++ line :: suf ∧
        (∀ l ∈ pre, mountMatches p l = false) ∧ mountMatches p line = true
  | [], h => by simp at h
  | line :: rest, h => by
    by_cases hl : mountMatches p line = true
    · exact ⟨[], line, rest, rfl, by simp, hl⟩
    · have hrest : (rest.any fun l => mountMatches p l) = true := by
        simpa [hl] using h
      obtain ⟨pre, l2, suf, heq, hpre, hl2⟩ := exists_first_match p rest hrest
      refine ⟨line :: pre, l2, suf, by simp [heq], ?_, hl2⟩
      intro l hlm
      rcases List.mem_cons.mp hlm with hh | hh
      · subst hh
        simpa using hl
      · exact hpre l hh

lemma unmountEntry_decomp (mp : List Char) :
    ∀ (pre : List String) (line : String) (suf : List String),
      (∀ l ∈ pre, mountpointOf l ≠ mp) → mountpointOf line = mp →
      unmountEntry mp (pre ++ line :: suf) = pre ++ suf
  | [], line, suf, _, hline => by
    unfold unmountEntry
    simp only [List.nil_append]
    rw [if_pos hline]
  | l0 :: pre, line, suf, hpre, hline => by
    unfold unmountEntry
    simp only [List.cons_append]
    rw [if_neg (hpre l0 (by simp))]
    rw [unmountEntry_decomp mp pre line suf
      (fun l hl => hpre l (by simp [hl])) hline]

lemma umount_filter (p : String) :
    ∀ (n : Nat) (table : List String), table.length ≤ n →
      wellFormedTable p table →
      umountGo p (n + 1) table = some (table.filter fun l => ! mountMatches p l)
  | n, table, hlen, wf => by
    by_cases hany : (table.any fun l => mountMatches p l) = true
    · obtain ⟨pre, line, suf, heq, hpre, hline⟩ := exists_first_match p table hany
      subst heq
      have h2pre : ∀ l ∈ pre, 2 ≤ (lineFields l).length :=
        fun l hl => (wf l (by simp [hl])).1
      have h2line : 2 ≤ (lineFields line).length := (wf line (by simp)).1
      have hscan := scanLines_first p pre line suf h2pre hpre h2line hline
      have hpfx : List.isPrefixOf (p ++ "/").data (mountpointOf line) = true := by
        have hne := (wf line (by simp)).2
        simp only [mountMatches, Bool.or_eq_true, decide_eq_true_eq] at hline
        rcases hline with h | h
        · exact h
        · exact absurd h hne
      have hmpne : ∀ l ∈ pre, mountpointOf l ≠ mountpointOf line := by
        intro l hl hcontra
        have : mountMatches p l = true := by
          simp only [mountMatches, Bool.or_eq_true]
          exact Or.inl (hcontra ▸ hpfx)
        exact absurd this (by simp [hpre l hl])
      cases n with
      | zero =>
        have : False := by
          simp only [List.length_append, List.length_cons] at hlen
          omega
        exact this.elim
      | succ n' =>
        have hlen' : (pre ++ suf).length ≤ n' := by
          simp only [List.length_append, List.length_cons] at hlen ⊢
          omega
        have wf' : wellFormedTable p (pre ++ suf) := by
          intro l hl
          refine wf l ?_
          rcases List.mem_append.mp hl with h | h
          · exact List.mem_append.mpr (Or.inl h)
          · exact List.mem_append.mpr (Or.inr (List.mem_cons_of_mem _ h))
        unfold umountGo
        rw [readLines, show (pre ++ line :: suf) ++ [""] = pre ++ (line :: (suf ++ [""])) by
          simp, hscan]
        dsimp only
        rw [unmountEntry_decomp (mountpointOf line) pre line suf hmpne rfl]
        rw [umount_filter p n' (pre ++ suf) hlen' wf']
        congr 1
        simp [List.filter_append, List.filter_cons, hline]
    · have hnone : ∀ l ∈ table, mountMatches p l = false := by
        intro l hl
        by_contra hc
        exact hany (List.any_eq_true.mpr ⟨l, hl, by simpa using hc⟩)
      cases n with
      | zero =>
        have htab : table = [] := by
          cases table with
          | nil => rfl
          | cons a l => simp at hlen
        subst htab
        rfl
      | succ n' =>
        unfold umountGo
        rw [readLines, scanLines_done p table (fun l hl => (wf l hl).1) hnone]
        dsimp only
        congr 1
        exact (List.filter_eq_self.mpr fun l hl => by simp [hnone l hl]).symm


/-- Claim C2 (counterexample): on a mount table whose single entry has
mountpoint exactly `/a`, `umount "/a"` returns success immediately while the
entry is still mounted — the scan matches only mountpoints strictly below
`imgPath + "/"` (the `mount != prefix` comparison reads the whole raw line,
which never equals the slash-suffixed prefix), so a mount at the path itself
is never unmounted, contrary to the claim. -/
theorem umount_leaves_path_itself_mounted :
    umountGo "/a" 2 ["dev /a x y"] = some ["dev /a x y"] ∧
    mountpointOf "dev /a x y" = "/a".data :=
  ⟨rfl, rfl⟩

/-- Claim C2 (amended): on a well-formed mount table, `umount(p)` unmounts
exactly the entries matched by the scan — those whose mountpoint extends
`p + "/"` — re-reading the table and restarting the scan after each unmount,
and returns success when a full scan finds no matching entry; an entry whose
mountpoint equals `p` itself is left mounted. -/
theorem umount_reaps_exactly_strict_submounts (p : String) (table : List String)
    (wf : wellFormedTable p table) :
    umountGo p (table.length + 1) table =
      some (table.filter fun l => ! mountMatches p l) :=
  umount_filter p table.length table le_rfl wf

/-- Witness for C2: a two-entry table in which the `/x/a` submount is reaped
and the unrelated `/y` mount survives. -/
theorem umount_reaps_exactly_strict_submounts_witness :
    wellFormedTable "/x" ["dev /x/a t o", "dev /y t o"] ∧
    umountGo "/x" 3 ["dev /x/a t o", "dev /y t o"] = some ["dev /y t o"] :=
  ⟨by unfold wellFormedTable; decide,
   (umount_reaps_exactly_strict_submounts "/x" ["dev /x/a t o", "dev /y t o"]
      (by unfold wellFormedTable; decide)).trans (by decide)⟩

end Mnt

namespace Cleanup

lemma stepDrop_snd (r dr : Option GoErr) : (stepDrop r dr).2 = true ↔ r ≠ none := by
  cases r <;> cases dr <;> simp [stepDrop]
  split <;> simp

/-- Claim C3 (counterexample): a build that failed (an error is held when
the defer runs) combined with a failing `umount` of the scratch path makes
the deferred cleanup return without ever calling `storage.Drop` — the drop
is not reached on this failing exit path. -/
theorem failed_build_cleanup_skips_drop_on_umount_failure :
    deferredCleanup (some (.other 0)) ⟨none, some (.other 1), none, none, none, none⟩ =
      (some (.other 0), false) :=
  rfl

/-- Claim C3 (amended): the deferred cleanup invokes `storage.Drop(buildID)`
exactly when the build failed (an error is held after the isolator
termination step) and all preceding cleanup steps succeeded — `umount`
clean, `.specdir` and scratch-path removal failing at worst with not-exist,
image unmount clean; in that case the result is the best-effort drop step,
which ignores `ErrImageDoesNotExist`.  When one of those steps fails, the
cleanup returns its error without dropping. -/
theorem cleanup_drop_requires_clean_steps (retErr0 : Option GoErr) (env : CleanEnv) :
    ((deferredCleanup retErr0 env).2 = true ↔
      heldAfterTerminate retErr0 env ≠ none ∧ cleanStepsOk env = true) ∧
    (cleanStepsOk env = true →
      deferredCleanup retErr0 env =
        stepDrop (heldAfterTerminate retErr0 env) env.dropRes) := by
  obtain ⟨ti, um, rs, iu, rp, dr⟩ := env
  simp only [deferredCleanup, cleanStepsOk, stepRemoveSpecdir, stepImgUnmount, stepRemovePath]
  generalize heldAfterTerminate retErr0 ⟨ti, um, rs, iu, rp, dr⟩ = r
  rcases um with _ | e1 <;> rcases rs with _ | e2 <;> rcases iu with _ | (_ | e3) <;>
    rcases rp with _ | e4 <;>
    (try by_cases h2 : isNotExist e2 = true) <;>
    (try by_cases h4 : isNotExist e4 = true) <;>
    simp [stepDrop_snd, *]

/-- Witness for C3: with a failed build, clean preceding steps, and a drop
that reports `ErrImageDoesNotExist`, the drop runs and its error is
ignored. -/
theorem cleanup_drop_requires_clean_steps_witness :
    ((deferredCleanup (some (.other 0))
        ⟨none, none, none, none, none, some .imageDoesNotExist⟩).2 = true ↔
      heldAfterTerminate (some (.other 0))
          ⟨none, none, none, none, none, some .imageDoesNotExist⟩ ≠ none ∧
        cleanStepsOk ⟨none, none, none, none, none, some .imageDoesNotExist⟩ = true) ∧
    deferredCleanup (some (.other 0))
        ⟨none, none, none, none, none, some .imageDoesNotExist⟩ =
      stepDrop (heldAfterTerminate (some (.other 0))
          ⟨none, none, none, none, none, some .imageDoesNotExist⟩)
        (some .imageDoesNotExist) :=
  ⟨(cleanup_drop_requires_clean_steps (some (.other 0))
      ⟨none, none, none, none, none, some .imageDoesNotExist⟩).1,
   (cleanup_drop_requires_clean_steps (some (.other 0))
      ⟨none, none, none, none, none, some .imageDoesNotExist⟩).2 rfl⟩

end Cleanup

namespace Infra



lemma StRel.refl (st : St) : StRel st st := ⟨fun _ h => h, id⟩

lemma StRel.trans {a b c : St} (h1 : StRel a b) (h2 : StRel b c) : StRel a c :=
  ⟨fun x hx => h2.1 (h1.1 hx), fun h => h2.2 (h1.2 h)⟩

/-- A state update that keeps `readyBuilds` and prepends events none of
which is a foreign isolator start preserves the relation. -/
lemma StRel.ofParts {st st' : St} (hready : st.readyBuilds ⊆ st'.readyBuilds)
    (htr : ∀ p ms, Event.isolatorStart p ms ∈ st'.trace →
      Event.isolatorStart p ms ∈ st.trace ∨ ms = [⟨".", "/.specdir", true⟩]) :
    StRel st st' := by
  refine ⟨hready, fun hiso p ms hm => ?_⟩
  rcases htr p ms hm with h | h
  · exact hiso p ms h
  · exact h

lemma strel_buildFromFile (env : BuildEnv) (buildRec : BuildRec)
    (hrec : ∀ d st, StRel st (buildRec d st).2)
    (specFile name : String) (tags : List String) (st : St) :
    StRel st (buildFromFileGo env buildRec specFile name tags st).2 := by
  unfold buildFromFileGo
  cases env.parse specFile
  · exact StRel.refl st
  · exact hrec _ st

lemma strel_resolveSrc (env : BuildEnv) (b : BuilderCfg) (buildRec : BuildRec)
    (hrec : ∀ d st, StRel st (buildRec d st).2) (key : BuildKey) (st : St) :
    StRel st (resolveSrc env b buildRec key st).2 := by
  rcases h1 : tryCacheLookup b st key with ⟨srcID, err1⟩
  rcases err1 with _ | e1
  · simp only [resolveSrc, h1]
    exact StRel.refl st
  · cases e1 <;> first
      | (simp only [resolveSrc, h1]; exact StRel.refl st)
      | skip
    rcases hs : (if key.tag = defaultTag then
        buildFromFileGo env buildRec key.name key.name [defaultTag] st
      else (some GoErr.imageDoesNotExist, st)) with ⟨e2, st2⟩
    have hspec : StRel st st2 := by
      by_cases hd : key.tag = defaultTag
      · rw [if_pos hd] at hs
        have := strel_buildFromFile env buildRec hrec key.name key.name [defaultTag] st
        rwa [hs] at this
      · rw [if_neg hd] at hs
        cases hs
        exact StRel.refl st
    rcases e2 with _ | e2
    · simp only [resolveSrc, h1, hs]
      exact hspec
    · cases e2 <;> first
        | (simp only [resolveSrc, h1, hs]; exact hspec)
        | skip
      rcases hr : (match env.repo key with
          | some baseImage => buildRec baseImage st2
          | none => buildRec (Describe key.name [key.tag] []) st2) with ⟨e3, st3⟩
      have hrepo : StRel st2 st3 := by
        rcases hk : env.repo key with _ | d <;> rw [hk] at hr <;> dsimp only at hr
        · have := hrec (Describe key.name [key.tag] []) st2
          rwa [hr] at this
        · have := hrec d st2
          rwa [hr] at this
      rcases e3 with _ | e3
      · simp only [resolveSrc, h1, hs, hr]
        exact hspec.trans hrepo
      · simp only [resolveSrc, h1, hs, hr]
        exact hspec.trans hrepo


lemma strel_cloneFnGo (env : BuildEnv) (b : BuilderCfg) (buildRec : BuildRec)
    (hrec : ∀ d st, StRel st (buildRec d st).2)
    (imgName : String) (buildID : BuildID) (path : Nat) (key : BuildKey) (st : St) :
    StRel st (cloneFnGo env b buildRec imgName buildID path key st).2 := by
  unfold cloneFnGo
  split
  · exact StRel.refl st
  split
  · exact StRel.refl st
  rcases h1 : resolveSrc env b buildRec key st with ⟨r1, st1⟩
  have hst1 : StRel st st1 := by
    have := strel_resolveSrc env b buildRec hrec key st
    rwa [h1] at this
  rcases r1 with e | srcID0
  · exact hst1
  dsimp only
  have hcons : ∀ (stor : Storage) (src : BuildID),
      StRel st1 { st1 with
        storage := stor,
        trace := Event.mountEv buildID path ::
          Event.cloneEv src imgName buildID :: st1.trace } := by
    intro stor src
    refine StRel.ofParts (fun x hx => hx) ?_
    intro p ms hm
    simp only [List.mem_cons] at hm
    rcases hm with h | h | h
    · exact absurd h (by simp)
    · exact absurd h (by simp)
    · exact Or.inl h
  split
  · exact hst1
  split
  · exact hst1
  split
  · exact hst1.trans (hcons _ _)
  · rename_i x2 srcBuildID heq2 x1 stor2 heq1 x0 manifest heq0
    refine hst1.trans ((hcons stor2 srcBuildID).trans (StRel.ofParts (fun x hx => hx) ?_))
    intro p ms hm
    rw [List.mem_cons] at hm
    rcases hm with h | h
    · right
      cases h
      rfl
    · exact Or.inl h

lemma strel_runCmds (env : BuildEnv) (cloneFn : BuildKey → St → Except GoErr Manifest × St)
    (hclone : ∀ key st, StRel st (cloneFn key st).2) :
    ∀ (cmds : List Command) (s : Session) (st : St),
      StRel st (runCmds env cloneFn cmds s st).2.2
  | [], s, st => StRel.refl st
  | c :: rest, s, st => by
    have hunf : runCmds env cloneFn (c :: rest) s st =
        match (match c with
               | .fromCmd key => imageBuildFrom cloneFn key s st
               | .paramsCmd ps => imageBuildParams ps s st
               | .execCmd cmd => imageBuildRun env cmd s st) with
        | (some e, s', st') => (some e, s', st')
        | (none, s', st') => runCmds env cloneFn rest s' st' := rfl
    rw [hunf]
    rcases hc : (match c with
        | .fromCmd key => imageBuildFrom cloneFn key s st
        | .paramsCmd ps => imageBuildParams ps s st
        | .execCmd cmd => imageBuildRun env cmd s st) with ⟨err, s', st'⟩
    rw [hc]
    have hst' : StRel st st' := by
      rcases c with key | ps | cmd <;> dsimp only at hc
      · unfold imageBuildFrom at hc
        split at hc
        · cases hc
          exact StRel.refl st
        · rcases hcf : cloneFn key st with ⟨mr, stc⟩
          have := hclone key st
          rw [hcf] at this hc
          rcases mr with e | m <;> dsimp only at hc <;> cases hc <;> exact this
      · unfold imageBuildParams at hc
        split at hc <;> cases hc <;> exact StRel.refl st
      · unfold imageBuildRun at hc
        split at hc <;> cases hc
        · exact StRel.refl st
        · refine StRel.ofParts (fun x hx => hx) ?_
          intro p ms hm
          simp only [List.mem_cons] at hm
          rcases hm with h | h
          · exact absurd h (by simp)
          · exact Or.inl h
    rcases err with _ | e
    · exact hst'.trans (strel_runCmds env cloneFn hclone rest s' st')
    · exact hst'

lemma strel_tagLoop (buildID : BuildID) :
    ∀ (keys : List BuildKey) (st : St), StRel st (tagLoop buildID keys st).2
  | [], st => StRel.refl st
  | key :: rest, st => by
    unfold tagLoop
    split
    · exact StRel.refl st
    · refine StRel.trans (b := { st with
        storage := _, trace := .tagEv buildID key.tag :: st.trace }) ?_
        (strel_tagLoop buildID rest _)
      refine StRel.ofParts (fun x hx => hx) ?_
      intro p ms hm
      simp only [List.mem_cons] at hm
      rcases hm with h | h
      · exact absurd h (by simp)
      · exact Or.inl h

lemma strel_initializeGo (env : BuildEnv) (key : BuildKey) (path : Nat) (st : St) :
    StRel st (initializeGo env key path st).2 := by
  unfold initializeGo
  split
  · exact StRel.refl st
  · refine StRel.ofParts (fun x hx => hx) ?_
    intro p ms hm
    simp only [List.mem_cons] at hm
    rcases hm with h | h | h | h | h
    all_goals first
      | (exact absurd h (by simp))
      | (exact Or.inl h)

lemma strel_checkTags (name : String) :
    ∀ (tags : List String) (st : St), StRel st (checkTags name tags st).2
  | [], st => StRel.refl st
  | tag :: rest, st => by
    unfold checkTags
    split
    · exact StRel.refl st
    · dsimp only
      split
      · exact StRel.refl st
      · rcases hc : checkTags name rest { st with stack := ⟨name, tag⟩ :: st.stack } with ⟨r, st'⟩
        have := strel_checkTags name rest { st with stack := ⟨name, tag⟩ :: st.stack }
        rw [hc] at this
        have hstep : StRel st { st with stack := ⟨name, tag⟩ :: st.stack } :=
          StRel.ofParts (fun x hx => hx) (fun p ms hm => Or.inl hm)
        rcases r with e | keys <;> dsimp only <;> exact hstep.trans this

lemma strel_buildBodyCore (env : BuildEnv) (b : BuilderCfg) (buildRec : BuildRec)
    (hrec : ∀ d st, StRel st (buildRec d st).2)
    (img : Descriptor) (tags : List String)
    (buildID : BuildID) (path : Nat) (st : St) :
    StRel st (buildBodyCore env b buildRec img tags buildID path st).2.2.2 := by
  rcases hb : buildBodyCore env b buildRec img tags buildID path st with
    ⟨err, up, mounted, st1⟩
  unfold buildBodyCore at hb
  dsimp only
  by_cases hcmds : img.commands = []
  · rw [if_pos hcmds] at hb
    by_cases hlen : tags.length ≠ 1
    · rw [if_pos hlen] at hb
      cases hb
      exact StRel.refl st
    · rw [if_neg hlen] at hb
      rcases hce : storCreateEmpty img.name buildID st.storage with e | stor2 <;>
        rw [hce] at hb <;> dsimp only at hb
      · cases hb
        exact StRel.refl st
      · rcases hinit : initializeGo env ⟨img.name, tags.getD 0 ""⟩ path
            { st with
              storage := stor2,
              trace := Event.mountEv buildID path ::
                Event.createEmpty img.name buildID :: st.trace } with ⟨ir, st2⟩
        rw [hinit] at hb
        have hi := strel_initializeGo env ⟨img.name, tags.getD 0 ""⟩ path
          { st with
            storage := stor2,
            trace := Event.mountEv buildID path ::
              Event.createEmpty img.name buildID :: st.trace }
        rw [hinit] at hi
        have hpre : StRel st { st with
            storage := stor2,
            trace := Event.mountEv buildID path ::
              Event.createEmpty img.name buildID :: st.trace } := by
          refine StRel.ofParts (fun x hx => hx) ?_
          intro p ms hm
          rw [List.mem_cons] at hm
          rcases hm with h | hm
          · exact absurd h (by simp)
          rw [List.mem_cons] at hm
          rcases hm with h | h
          · exact absurd h (by simp)
          · exact Or.inl h
        rcases ir with _ | e <;> dsimp only at hb <;> cases hb <;> exact hpre.trans hi
  · rw [if_neg hcmds] at hb
    rcases hrun : runCmds env (cloneFnGo env b buildRec img.name buildID path)
        img.commands ⟨false, ⟨0, 0, []⟩⟩ st with ⟨rr, s, st2⟩
    rw [hrun] at hb
    have hr := strel_runCmds env (cloneFnGo env b buildRec img.name buildID path)
      (fun key st => strel_cloneFnGo env b buildRec hrec img.name buildID path key st)
      img.commands ⟨false, ⟨0, 0, []⟩⟩ st
    rw [hrun] at hr
    rcases rr with _ | e <;> dsimp only at hb <;> cases hb
    · refine hr.trans (StRel.ofParts (fun x hx => hx) ?_)
      intro p ms hm
      rw [List.mem_cons] at hm
      rcases hm with h | h
      · exact absurd h (by simp)
      · exact Or.inl h
    · exact hr

lemma strel_buildBody (env : BuildEnv) (b : BuilderCfg) (buildRec : BuildRec)
    (hrec : ∀ d st, StRel st (buildRec d st).2)
    (img : Descriptor) (tags : List String) (keys : List BuildKey)
    (buildID : BuildID) (path : Nat) (st : St) :
    StRel st (buildBody env b buildRec img tags keys buildID path st).2.2.2 := by
  unfold buildBody
  rcases hb : buildBodyCore env b buildRec img tags buildID path st with
    ⟨err, up, mounted, st1⟩
  have hst1 : StRel st st1 := by
    have := strel_buildBodyCore env b buildRec hrec img tags buildID path st
    rw [hb] at this
    exact this
  rcases err with _ | e
  · dsimp only
    rcases htag : tagLoop buildID keys st1 with ⟨tr, st2⟩
    have ht := strel_tagLoop buildID keys st1
    rw [htag] at ht
    rcases tr with _ | e <;> dsimp only
    · refine (hst1.trans ht).trans ?_
      exact StRel.ofParts (List.subset_append_right _ _) (fun p ms hm => Or.inl hm)
    · exact hst1.trans ht
  · exact hst1


/-- A state whose trace extends the old one by events that are not isolator
starts is related to it. -/
lemma StRel.ofAppend {st st' : St} (hready : st.readyBuilds ⊆ st'.readyBuilds)
    (evs : List Event) (htr : st'.trace = evs ++ st.trace)
    (hevs : ∀ p ms, Event.isolatorStart p ms ∉ evs) : StRel st st' := by
  refine StRel.ofParts hready ?_
  intro p ms hm
  rw [htr, List.mem_append] at hm
  rcases hm with h | h
  · exact absurd h (hevs p ms)
  · exact Or.inl h

lemma strel_buildCleanup (bodyErr : Option GoErr) (isolatorUp mounted : Bool)
    (buildID : BuildID) (path : Nat) (st : St) :
    StRel st (buildCleanup bodyErr isolatorUp mounted buildID path st).2 := by
  unfold buildCleanup
  by_cases hup : isolatorUp = true <;> by_cases hm : mounted = true <;>
    simp only [hup, hm, if_true, if_false, Bool.false_eq_true, ite_true, ite_false] <;>
    rcases bodyErr with _ | e <;> dsimp only
  all_goals try
    first
      | exact StRel.ofAppend (fun x hx => hx)
          [.removeScratch path, .imgUnmountEv path, .removeSpecdir path,
           .umountScratch path, .isolatorTerminate] rfl (by simp)
      | exact StRel.ofAppend (fun x hx => hx)
          [.removeScratch path, .removeSpecdir path,
           .umountScratch path, .isolatorTerminate] rfl (by simp)
      | exact StRel.ofAppend (fun x hx => hx)
          [.removeScratch path, .imgUnmountEv path, .removeSpecdir path,
           .umountScratch path] rfl (by simp)
      | exact StRel.ofAppend (fun x hx => hx)
          [.removeScratch path, .removeSpecdir path, .umountScratch path] rfl (by simp)
  all_goals split
  all_goals first
    | exact StRel.ofAppend (fun x hx => hx)
        [.dropEv buildID, .removeScratch path, .imgUnmountEv path, .removeSpecdir path,
         .umountScratch path, .isolatorTerminate] rfl (by simp)
    | exact StRel.ofAppend (fun x hx => hx)
        [.dropEv buildID, .removeScratch path, .removeSpecdir path,
         .umountScratch path, .isolatorTerminate] rfl (by simp)
    | exact StRel.ofAppend (fun x hx => hx)
        [.dropEv buildID, .removeScratch path, .imgUnmountEv path, .removeSpecdir path,
         .umountScratch path] rfl (by simp)
    | exact StRel.ofAppend (fun x hx => hx)
        [.dropEv buildID, .removeScratch path, .removeSpecdir path,
         .umountScratch path] rfl (by simp)
    | (split <;>
        first
          | exact StRel.ofAppend (fun x hx => hx)
              [.dropEv buildID, .removeScratch path, .imgUnmountEv path, .removeSpecdir path,
               .umountScratch path, .isolatorTerminate] rfl (by simp)
          | exact StRel.ofAppend (fun x hx => hx)
              [.dropEv buildID, .removeScratch path, .removeSpecdir path,
               .umountScratch path, .isolatorTerminate] rfl (by simp)
          | exact StRel.ofAppend (fun x hx => hx)
              [.dropEv buildID, .removeScratch path, .imgUnmountEv path, .removeSpecdir path,
               .umountScratch path] rfl (by simp)
          | exact StRel.ofAppend (fun x hx => hx)
              [.dropEv buildID, .removeScratch path, .removeSpecdir path,
               .umountScratch path] rfl (by simp))

lemma strel_buildGo (env : BuildEnv) (b : BuilderCfg) :
    ∀ (fuel : Nat) (img : Descriptor) (st : St),
      StRel st (buildGo env b fuel img st).2
  | 0, _, st => StRel.refl st
  | fuel + 1, img, st => by
    unfold buildGo
    split
    · exact StRel.refl st
    · dsimp only
      rcases hct : checkTags img.name (if img.tags = [] then [defaultTag] else img.tags) st
        with ⟨cr, st1⟩
      have hc := strel_checkTags img.name (if img.tags = [] then [defaultTag] else img.tags) st
      rw [hct] at hc
      rcases cr with e | keys <;> dsimp only
      · exact hc
      · rcases hbb : buildBody env b (buildGo env b fuel) img
            (if img.tags = [] then [defaultTag] else img.tags) keys st1.nextID st1.nextID
            { st1 with
              nextID := st1.nextID + 1,
              trace := Event.tempDir st1.nextID :: st1.trace } with ⟨be, up, mounted, st2⟩
        dsimp only
        have hmid : StRel st1 { st1 with
            nextID := st1.nextID + 1,
            trace := Event.tempDir st1.nextID :: st1.trace } :=
          StRel.ofAppend (fun x hx => hx) [.tempDir st1.nextID] rfl (by simp)
        have hb2 := strel_buildBody env b (buildGo env b fuel)
          (fun d st => strel_buildGo env b fuel d st) img
          (if img.tags = [] then [defaultTag] else img.tags) keys st1.nextID st1.nextID
          { st1 with
            nextID := st1.nextID + 1,
            trace := Event.tempDir st1.nextID :: st1.trace }
        rw [hbb] at hb2
        exact ((hc.trans hmid).trans hb2).trans
          (strel_buildCleanup be up mounted st1.nextID st1.nextID st2)

lemma strel_buildTop (env : BuildEnv) (b : BuilderCfg) (fuel : Nat)
    (img : Descriptor) (st : St) : StRel st (BuildTop env b fuel img st).2 :=
  StRel.trans (StRel.ofAppend (fun x hx => hx) [] rfl (by simp))
    (strel_buildGo env b fuel img { st with stack := [] })


/-- Claim C8: within one build session, a `From` after `From` has completed
fails with the duplicate-FROM error leaving the session and the world — in
particular the manifest — unchanged; and `Params` or `Run` invoked before
`From` has completed fail with the missing-FROM error, again leaving session
and world unchanged, so no isolator message is sent and no trace event is
recorded. -/
theorem session_from_once_and_missing_from_guards
    (cloneFn : BuildKey → St → Except GoErr Manifest × St)
    (env : BuildEnv) (key : BuildKey) (ps : List String) (cmd : String)
    (s : Session) (st : St) :
    (s.fromDone = true →
      imageBuildFrom cloneFn key s st = (some .duplicateFrom, s, st)) ∧
    (s.fromDone = false →
      imageBuildParams ps s st = (some .missingFrom, s, st) ∧
      imageBuildRun env cmd s st = (some .missingFrom, s, st)) := by
  constructor
  · intro h
    simp [imageBuildFrom, h]
  · intro h
    constructor
    · simp [imageBuildParams, h]
    · simp [imageBuildRun, h]

/-- Witness for C8: the three guards at concrete sessions. -/
theorem session_from_once_and_missing_from_guards_witness :
    imageBuildFrom (fun _ st => (.error .imageDoesNotExist, st)) ⟨"x", "latest"⟩
        ⟨true, ⟨0, 0, []⟩⟩ st0 = (some .duplicateFrom, ⟨true, ⟨0, 0, []⟩⟩, st0) ∧
    imageBuildParams ["a"] ⟨false, ⟨0, 0, []⟩⟩ st0 =
        (some .missingFrom, ⟨false, ⟨0, 0, []⟩⟩, st0) ∧
    imageBuildRun env0 "ls" ⟨false, ⟨0, 0, []⟩⟩ st0 =
        (some .missingFrom, ⟨false, ⟨0, 0, []⟩⟩, st0) :=
  ⟨(session_from_once_and_missing_from_guards (fun _ st => (.error .imageDoesNotExist, st))
      env0 ⟨"x", "latest"⟩ ["a"] "ls" ⟨true, ⟨0, 0, []⟩⟩ st0).1 rfl,
   ((session_from_once_and_missing_from_guards (fun _ st => (.error .imageDoesNotExist, st))
      env0 ⟨"x", "latest"⟩ ["a"] "ls" ⟨false, ⟨0, 0, []⟩⟩ st0).2 rfl).1,
   ((session_from_once_and_missing_from_guards (fun _ st => (.error .imageDoesNotExist, st))
      env0 ⟨"x", "latest"⟩ ["a"] "ls" ⟨false, ⟨0, 0, []⟩⟩ st0).2 rfl).2⟩

/-- Claim C6: for a `FROM` source whose cache-lookup phase yields
`ErrImageDoesNotExist`, the rest of the resolution is exactly the fallback
chain the specification describes: the spec-file fallback (recursive
`buildFromFile` on the file named after the source, under the default tag)
runs iff the tag is the default tag; if it too yields
`ErrImageDoesNotExist`, the repository is consulted and its descriptor built
recursively, with the empty descriptor `Describe(name, [tag])` built when
the repository has no entry; any other error at either point aborts
resolution with that error. -/
theorem from_resolution_follows_fallback_chain (env : BuildEnv) (b : BuilderCfg)
    (buildRec : BuildRec) (key : BuildKey) (st : St)
    (h : tryCacheLookup b st key = (0, some .imageDoesNotExist)) :
    resolveSrc env b buildRec key st = resolveSpecClaim env buildRec key st := by
  unfold resolveSrc resolveSpecClaim
  rw [h]

/-- Witness for C6: the fallback chain at a concrete unresolved key. -/
theorem from_resolution_follows_fallback_chain_witness :
    tryCacheLookup ⟨false⟩ st0 ⟨"img", "latest"⟩ = (0, some .imageDoesNotExist) ∧
    resolveSrc env0 ⟨false⟩ (fun _ st => (none, st)) ⟨"img", "latest"⟩ st0 =
      resolveSpecClaim env0 (fun _ st => (none, st)) ⟨"img", "latest"⟩ st0 :=
  ⟨rfl, from_resolution_follows_fallback_chain env0 ⟨false⟩ (fun _ st => (none, st))
      ⟨"img", "latest"⟩ st0 rfl⟩

/-- Claim C4 (counterexample): on a rebuild-mode Builder, after the first
top-level call has built `base:latest` (build ID 2) as a dependency of
`app`, a second, separate top-level call building `app2` FROM `base:latest`
does not rebuild `base`: the tag still resolves to build ID 2, exactly one
`base` dataset exists, and only one new build ID (for `app2` itself) was
allocated — `readyBuilds` persists on the Builder across top-level calls. -/
theorem ready_key_not_rebuilt_across_toplevel_calls :
    call1.1 = none ∧ call2.1 = none ∧
    (⟨"base", "latest"⟩ : BuildKey) ∈ call1.2.readyBuilds ∧
    storBuildID call1.2.storage ⟨"base", "latest"⟩ = .ok 2 ∧
    storBuildID call2.2.storage ⟨"base", "latest"⟩ = .ok 2 ∧
    (call2.2.storage.datasets.filter fun e => decide (e.2 = "base")).length = 1 ∧
    call1.2.nextID = 3 ∧ call2.2.nextID = 4 :=
  ⟨rfl, rfl, by decide, rfl, rfl, rfl, rfl, rfl⟩

/-- Claim C4 (amended): with `rebuild = true` the `FROM` resolver skips the
storage cache lookup — it behaves as a fixed `ErrImageDoesNotExist` miss,
independent of the tag index — unless the key is in `readyBuilds`, in which
case the storage lookup is consulted; and `readyBuilds` is a persistent
field of the Builder that a top-level `Build` call never clears, so keys
marked ready survive into later, separate top-level calls. -/
theorem rebuild_cache_and_ready_persistence :
    (∀ (st : St) (key : BuildKey), key ∉ st.readyBuilds →
        tryCacheLookup ⟨true⟩ st key = (0, some .imageDoesNotExist)) ∧
    (∀ (b : BuilderCfg) (st : St) (key : BuildKey), key ∈ st.readyBuilds →
        tryCacheLookup b st key =
          (match storBuildID st.storage key with
           | .ok id => (id, none)
           | .error e => (0, some e))) ∧
    (∀ (env : BuildEnv) (b : BuilderCfg) (fuel : Nat) (img : Descriptor) (st : St),
        st.readyBuilds ⊆ (BuildTop env b fuel img st).2.readyBuilds) := by
  refine ⟨?_, ?_, ?_⟩
  · intro st key h
    rw [tryCacheLookup, if_neg]
    simp [h]
  · intro b st key h
    rw [tryCacheLookup, if_pos (Or.inr h)]
  · intro env b fuel img st
    exact (strel_buildTop env b fuel img st).1

/-- Witness for C4: the skipped lookup at a fresh rebuild-mode world, and
the ready key of the first top-level call still marked after the second. -/
theorem rebuild_cache_and_ready_persistence_witness :
    tryCacheLookup ⟨true⟩ st0 ⟨"base", "latest"⟩ = (0, some .imageDoesNotExist) ∧
    (⟨"base", "latest"⟩ : BuildKey) ∈ call2.2.readyBuilds :=
  ⟨rebuild_cache_and_ready_persistence.1 st0 ⟨"base", "latest"⟩ (by decide),
   rebuild_cache_and_ready_persistence.2.2 env0 ⟨true⟩ 10 app2 call1.2 (by decide)⟩

/-- Claim C5 (counterexample): in the concrete derivative build, the
isolator is started with the spec directory bound at `/.specdir` with
`Writable: true` — every isolator start in the trace carries only writable
mounts, so the guest can mutate the host spec tree, contrary to the
claim. -/
theorem specdir_mount_is_writable :
    call1.1 = none ∧
    Event.isolatorStart 1 [⟨".", "/.specdir", true⟩] ∈ call1.2.trace ∧
    ∀ e ∈ call1.2.trace,
      (match e with
       | Event.isolatorStart _ ms => ms.all fun m => m.writable
       | _ => true) = true :=
  ⟨rfl, by decide, by decide⟩

/-- Claim C5 (amended): every isolator start performed by a top-level build
passes exactly the one bind `{Host: ".", Container: "/.specdir",
Writable: true}` — the spec directory is exposed writable, not
read-only. -/
theorem isolator_mounts_exactly_writable_specdir (env : BuildEnv) (b : BuilderCfg)
    (fuel : Nat) (img : Descriptor) (st : St)
    (h : isoStartsSpecdirWritable st.trace) :
    isoStartsSpecdirWritable ((BuildTop env b fuel img st).2.trace) :=
  (strel_buildTop env b fuel img st).2 h

/-- Witness for C5: the invariant at the concrete scenario, starting from
the empty trace. -/
theorem isolator_mounts_exactly_writable_specdir_witness :
    isoStartsSpecdirWritable ([] : List Event) ∧
    isoStartsSpecdirWritable call1.2.trace :=
  ⟨by simp [isoStartsSpecdirWritable],
   isolator_mounts_exactly_writable_specdir env0 ⟨true⟩ 10 app1 st0
     (by simp [isoStartsSpecdirWritable, st0])⟩


/-- Claim C9: building a command-less descriptor named `scratch`: the
initialize step returns immediately — the trace records no `root` mkdir, no
chroot enter/exit, and no initializer call — while the empty dataset is
still created, mounted, and tagged like any other base image, and the build
succeeds. -/


theorem scratch_base_build_skips_initialization (env : BuildEnv) (b : BuilderCfg) (fuel : Nat) (tag : String)
    (st : St) (hv : isTagValid tag = true)
    (hs : (⟨"scratch", tag⟩ : BuildKey) ∉ st.stack)
    (hf : ∀ nm, (st.nextID, nm) ∉ st.storage.datasets) :
    (buildGo env b (fuel + 1) (Describe "scratch" [tag] []) st).1 = none ∧
    (buildGo env b (fuel + 1) (Describe "scratch" [tag] []) st).2.trace =
      .removeScratch st.nextID :: .imgUnmountEv st.nextID ::
      .removeSpecdir st.nextID :: .umountScratch st.nextID ::
      .tagEv st.nextID tag :: .mountEv st.nextID st.nextID ::
      .createEmpty "scratch" st.nextID :: .tempDir st.nextID :: st.trace ∧
    storBuildID (buildGo env b (fuel + 1) (Describe "scratch" [tag] []) st).2.storage
      ⟨"scratch", tag⟩ = .ok st.nextID ∧
    (st.nextID, "scratch") ∈
      (buildGo env b (fuel + 1) (Describe "scratch" [tag] []) st).2.storage.datasets := by
  have hname : isNameValid "scratch" = true := by decide
  have hfind : (st.storage.datasets.find? fun e => decide (e.1 = st.nextID)) = none := by
    rw [List.find?_eq_none]
    intro e he
    simp only [decide_eq_true_eq]
    intro hc
    exact hf e.2 (by rw [← hc, Prod.mk.eta]; exact he)
  have hmain : buildGo env b (fuel + 1) (Describe "scratch" [tag] []) st =
      (none, ⟨⟨"scratch", tag⟩ :: st.readyBuilds,
             ⟨"scratch", tag⟩ :: st.stack,
             st.nextID + 1,
             ⟨(st.nextID, "scratch") :: st.storage.datasets,
              (st.nextID, ⟨st.nextID, 0, []⟩) :: st.storage.manifests,
              (⟨"scratch", tag⟩, st.nextID) ::
                st.storage.tagIdx.filter fun t => ! decide (t.1 = ⟨"scratch", tag⟩)⟩,
             .removeScratch st.nextID :: .imgUnmountEv st.nextID ::
             .removeSpecdir st.nextID :: .umountScratch st.nextID ::
             .tagEv st.nextID tag :: .mountEv st.nextID st.nextID ::
             .createEmpty "scratch" st.nextID :: .tempDir st.nextID :: st.trace⟩) := by
    simp [buildGo, Describe, hname, hv, checkTags, hs, buildBody, buildBodyCore,
      storCreateEmpty, hfind, initializeGo, tagLoop, storTag, markReady, buildCleanup,
      List.find?]
  refine ⟨by rw [hmain], by rw [hmain], ?_, ?_⟩
  · rw [hmain]
    simp [storBuildID, List.find?]
  · rw [hmain]
    simp


/-- Witness for C9: the scratch base build at the initial world. -/
theorem scratch_base_build_skips_initialization_witness :
    (buildGo env0 ⟨true⟩ 1 (Describe "scratch" ["latest"] []) st0).1 = none ∧
    (buildGo env0 ⟨true⟩ 1 (Describe "scratch" ["latest"] []) st0).2.trace =
      [.removeScratch 1, .imgUnmountEv 1, .removeSpecdir 1, .umountScratch 1,
       .tagEv 1 "latest", .mountEv 1 1, .createEmpty "scratch" 1, .tempDir 1] ∧
    storBuildID (buildGo env0 ⟨true⟩ 1 (Describe "scratch" ["latest"] []) st0).2.storage
      ⟨"scratch", "latest"⟩ = .ok 1 :=
  have h := scratch_base_build_skips_initialization env0 ⟨true⟩ 0 "latest" st0
    (by decide) (by decide) (fun nm hm => absurd hm (List.not_mem_nil _))
  ⟨h.1, by rw [h.2.1]; rfl, h.2.2.1⟩

end Infra
